import Mathlib

/-!
Verification of the mail-event synchronization layer of the inbox-zero
repository: a shallow embedding in Lean 4 of the IMAP thread resolver
(`apps/web/utils/imap/thread.ts`), the IMAP keyword/label adapter
(`utils/imap/keywords`), the Fastmail poll engine
(`apps/web/utils/fastmail/poll-sync.ts`), and the Fastmail EventSource
daemon (`eventsource-client.ts`, `webhook-caller.ts`, `account-manager.ts`),
together with theorems settling the stated properties of each component.

Strings are manipulated through their underlying character lists so that
every definition evaluates by kernel reduction.  JavaScript `Map` objects
are modelled as insertion-ordered association lists with the exact
`get`/`set` semantics.  JavaScript string truthiness (`undefined` and `""`
are falsy) is modelled explicitly wherever the source branches on it.
-/

/-! ### JavaScript primitive helpers -/

/-- JS string truthiness of a `string | undefined` value: truthy iff
defined and nonempty.  Used wherever the source writes `if (someString)`. -/
def strTruthy : Option String → Bool
  | none => false
  | some s => s ≠ ""

/-- JS `|| fallback` applied to a `string | undefined`: the fallback is taken
when the value is `undefined` or the empty string. -/
def strOrElse : Option String → String → String
  | some s, d => if s = "" then d else s
  | none, d => d

/-- JS `Map.get` on an insertion-ordered association list. -/
def jmapGet {α : Type} (m : List (String × α)) (k : String) : Option α :=
  (m.find? (fun p => p.1 == k)).map Prod.snd

/-- JS `Map.set`: overwrite in place when the key already exists (keeping
insertion order), append at the end otherwise. -/
def jmapSet {α : Type} (m : List (String × α)) (k : String) (v : α) : List (String × α) :=
  if m.any (fun p => p.1 == k) then
    m.map (fun p => if p.1 == k then (k, v) else p)
  else m ++ [(k, v)]

/-- The characters JS `trim` and the `\s` class treat as whitespace
(restricted to the ASCII range, which is all the sources ever feed it). -/
def jsIsWs (c : Char) : Bool := c == ' ' || c == '\t' || c == '\n' || c == '\r'

/-- JS `string.trim()`. -/
def jsTrim (s : String) : String :=
  String.mk (((s.data.dropWhile jsIsWs).reverse.dropWhile jsIsWs).reverse)

/-- JS `string.toLowerCase()` (ASCII). -/
def jsToLower (s : String) : String := String.mk (s.data.map Char.toLower)

/-- JS `string.toUpperCase()` (ASCII). -/
def jsToUpper (s : String) : String := String.mk (s.data.map Char.toUpper)

/-- JS `string.substring(0, n)`. -/
def jsTake (s : String) (n : Nat) : String := String.mk (s.data.take n)

/-- JS `string.substring(n)`. -/
def jsDropChars (s : String) (n : Nat) : String := String.mk (s.data.drop n)

/-- JS `string.startsWith(pre)`. -/
def jsStartsWith (s pre : String) : Bool := s.data.take pre.data.length == pre.data

/-! ### IMAP thread resolver (`apps/web/utils/imap/thread.ts`) -/

/-- Embeds `hashToThreadId`.  The normalization follows the source
(`messageId.replace(/[<>]/g, "").toLowerCase().trim()`); the SHA-256 hex
digest, a primitive the claims never depend on beyond determinism, is
abstracted as the function parameter `digest`; the source then prepends
`thread_` to the first 24 digest characters. -/
def hashToThreadId (digest : String → String) (messageId : String) : String :=
  let normalized :=
    jsTrim (jsToLower (String.mk (messageId.data.filter (fun c => !(c == '<' || c == '>')))))
  "thread_" ++ jsTake (digest normalized) 24

/-- Embeds `generateThreadId`: reply-to identifier first, then the first
reference, then the message's own identifier.  The `if (inReplyTo)` test is
JS truthiness, hence the `strTruthy` guard. -/
def generateThreadId (digest : String → String) (messageId : String)
    (inReplyTo : Option String) (references : List String)
    (_subject : String) : String :=
  if strTruthy inReplyTo then hashToThreadId digest (inReplyTo.getD "")
  else
    match references with
    | r :: _ => hashToThreadId digest r
    | [] => hashToThreadId digest messageId

/-- The fields of `ImapMessage` that the threading code reads; `date` is the
millisecond timestamp `new Date(message.date).getTime()`. -/
structure ImapMessage where
  messageId : String
  threadId : String
  inReplyTo : Option String
  references : List String
  date : Nat
deriving Repr, DecidableEq

/-- Second pass of `groupMessagesIntoThreads` for a single message: resolve
the target thread through `inReplyTo`, then through each reference, updating
`threadMergeMap` exactly as the source does (`threadMergeMap.get(x) || x`
one-step lookups, `threadMergeMap.set(message.threadId, ...)`). -/
def mergeStep (messageIdToThread : List (String × String))
    (mergeMap0 : List (String × String)) (m : ImapMessage) :
    List (String × String) :=
  let target0 := m.threadId
  let target1 :=
    if strTruthy m.inReplyTo then
      match jmapGet messageIdToThread (m.inReplyTo.getD "") with
      | some replyToThread =>
          if replyToThread = "" then target0
          else strOrElse (jmapGet mergeMap0 replyToThread) replyToThread
      | none => target0
    else target0
  let stepRef : List (String × String) × String → String → List (String × String) × String :=
    fun acc ref =>
      match jmapGet messageIdToThread ref with
      | some refThread =>
          if refThread = "" then acc
          else
            let merged := strOrElse (jmapGet acc.1 refThread) refThread
            if merged ≠ acc.2 then (jmapSet acc.1 m.threadId merged, merged) else acc
      | none => acc
  let after := m.references.foldl stepRef (mergeMap0, target1)
  jmapSet after.1 m.threadId after.2

/-- Stable insertion of a message into a date-ascending list (models the
stable JS `sort((a, b) => dateA - dateB)` applied per thread). -/
def insertByDate (m : ImapMessage) : List ImapMessage → List ImapMessage
  | [] => [m]
  | x :: xs => if x.date ≤ m.date then x :: insertByDate m xs else m :: x :: xs

/-- Date-ascending stable sort of a thread's messages. -/
def sortByDate (l : List ImapMessage) : List ImapMessage :=
  l.foldl (fun acc m => insertByDate m acc) []

/-- Embeds `groupMessagesIntoThreads`: first pass records
`messageId -> threadId`; second pass builds `threadMergeMap`; third pass
groups each message under `threadMergeMap.get(threadId) || threadId`; the
messages of each thread are finally sorted by date ascending. -/
def groupMessagesIntoThreads (messages : List ImapMessage) :
    List (String × List ImapMessage) :=
  let messageIdToThread :=
    messages.foldl (fun acc m => jmapSet acc m.messageId m.threadId) []
  let threadMergeMap :=
    messages.foldl (fun acc m => mergeStep messageIdToThread acc m) []
  let threads := messages.foldl
    (fun acc m =>
      let finalThreadId := strOrElse (jmapGet threadMergeMap m.threadId) m.threadId
      jmapSet acc finalThreadId ((jmapGet acc finalThreadId).getD [] ++ [m])) []
  threads.map (fun g => (g.1, sortByDate g.2))

/-- Identity digest used for the concrete batches below (any injective digest
exhibits the same behaviour; the source's truncated SHA-256 is injective on
these inputs up to negligible collisions). -/
def cexDigest : String → String := fun s => s

/-- Reply chain for the C1 batch: `msgC` answers a message `d` that is not in
the batch, `msgB` answers `msgC`, `msgA` answers `msgB`; each `threadId` is
exactly what `generateThreadId` produces for those headers. -/
def msgC : ImapMessage :=
  ⟨"c", generateThreadId cexDigest "c" (some "d") ["d"] "Re: topic", some "d", ["d"], 1000⟩

/-- Middle message of the C1 batch; replies to `msgC`. -/
def msgB : ImapMessage :=
  ⟨"b", generateThreadId cexDigest "b" (some "c") ["c"] "Re: topic", some "c", ["c"], 2000⟩

/-- Latest message of the C1 batch; replies to `msgB`. -/
def msgA : ImapMessage :=
  ⟨"a", generateThreadId cexDigest "a" (some "b") ["b"] "Re: topic", some "b", ["b"], 3000⟩

/-! ### Fastmail EventSource client
(`apps/fastmail-eventsource-daemon/src/eventsource-client.ts`)

The class state is a record; each method is a state transformer.  Timers and
the EventSource object are modelled by flags (`reconnectTimerPending`,
`esPresent`/`esOpen`); `scheduledDelays` logs the delay of every reconnect
actually handed to `setTimeout`, and `fatalErrorSurfaced` records that the
max-attempts error was passed to the caller's `onError`. -/

/-- Constant `maxReconnectAttempts` of `FastmailEventSourceClient`. -/
def maxReconnectAttempts : Nat := 10

/-- Constant `baseReconnectDelay` (1 second). -/
def baseReconnectDelay : Nat := 1000

/-- Constant `maxReconnectDelay` (5 minutes). -/
def maxReconnectDelay : Nat := 300000

/-- State of a `FastmailEventSourceClient` instance. -/
structure ESClientState where
  esPresent : Bool
  esOpen : Bool
  reconnectAttempts : Nat
  reconnectTimerPending : Bool
  closed : Bool
  accessToken : String
  scheduledDelays : List Nat
  fatalErrorSurfaced : Bool
deriving Repr, DecidableEq

/-- Embeds `disconnect()`: clear any pending reconnect timer and close the
EventSource, if any. -/
def esDisconnect (s : ESClientState) : ESClientState :=
  { s with reconnectTimerPending := false, esPresent := false, esOpen := false }

/-- Embeds `isConnected()`: the EventSource exists and its readyState is OPEN. -/
def esIsConnected (s : ESClientState) : Bool := s.esPresent && s.esOpen

/-- Embeds `connect()`: a no-op once closed; otherwise disconnect any existing
EventSource first and create a fresh (not yet open) one. -/
def esConnect (s : ESClientState) : ESClientState :=
  if s.closed then s
  else
    let s1 := if s.esPresent then esDisconnect s else s
    { s1 with esPresent := true, esOpen := false }

/-- Embeds the `onopen` handler: the connection opens and the
reconnect-attempt counter resets to zero. -/
def esOpenEvent (s : ESClientState) : ESClientState :=
  if s.esPresent then { s with esOpen := true, reconnectAttempts := 0 } else s

/-- Embeds `handleDisconnect()`: nothing happens when the client is closed;
at or beyond the attempt cap a fatal error is surfaced and no reconnect is
scheduled; otherwise a reconnect with delay
`min(baseReconnectDelay * 2 ** reconnectAttempts, maxReconnectDelay)` is
scheduled and the counter is incremented. -/
def handleDisconnect (s : ESClientState) : ESClientState :=
  if s.closed then s
  else if maxReconnectAttempts ≤ s.reconnectAttempts then
    { s with fatalErrorSurfaced := true }
  else
    { s with
      reconnectAttempts := s.reconnectAttempts + 1,
      reconnectTimerPending := true,
      scheduledDelays := s.scheduledDelays ++
        [min (baseReconnectDelay * 2 ^ s.reconnectAttempts) maxReconnectDelay] }

/-- Embeds the reconnect timer firing: the pending timer runs `connect()`. -/
def esTimerFire (s : ESClientState) : ESClientState :=
  if s.reconnectTimerPending then esConnect { s with reconnectTimerPending := false } else s

/-- Embeds `close()`: mark the client closed forever, then `disconnect()`. -/
def esClose (s : ESClientState) : ESClientState :=
  esDisconnect { s with closed := true }

/-- Embeds `updateAccessToken(newToken)`: disconnect, swap the token in place,
and only when the client had been connected reset the attempt counter and
reconnect. -/
def updateAccessToken (s : ESClientState) (newToken : String) : ESClientState :=
  let wasConnected := esIsConnected s
  let s1 := esDisconnect s
  let s2 := { s1 with accessToken := newToken }
  if wasConnected then esConnect { s2 with reconnectAttempts := 0 } else s2

/-- A freshly constructed client (no EventSource, zero attempts, not closed). -/
def esInitState : ESClientState := ⟨false, false, 0, false, false, "tok0", [], false⟩

/-- A client waiting out a reconnect backoff delay: three failures so far, the
fourth reconnect timer pending, EventSource torn down. -/
def esBackoffState : ESClientState :=
  ⟨false, false, 3, true, false, "tok0", [1000, 2000, 4000], false⟩

/-! ### Webhook caller (`apps/fastmail-eventsource-daemon/src/webhook-caller.ts`) -/

/-- Outcome of one `fetch` of the webhook endpoint: an HTTP response with a
status code, or a thrown network error. -/
inductive FetchOutcome
  | response (status : Nat)
  | networkError
deriving Repr, DecidableEq

/-- Constant `MAX_RETRIES`. -/
def MAX_RETRIES : Nat := 3

/-- Constant `BASE_RETRY_DELAY` (1 second). -/
def BASE_RETRY_DELAY : Nat := 1000

/-- Observable result of one `callWebhook` run: the returned boolean, the
number of fetch attempts made, and the backoff delays slept between them. -/
structure WebhookRun where
  result : Bool
  attemptsMade : Nat
  delays : List Nat
deriving Repr, DecidableEq

/-- Loop body of `callWebhook`; `responses` gives the outcome of the fetch on
each (0-based) attempt and `fuel` bounds the remaining iterations of the
source's `for (let attempt = 0; attempt <= MAX_RETRIES; attempt++)` loop;
the top-level call supplies `fuel = MAX_RETRIES + 1`, which the loop never
exhausts.  `response.ok` is status 200-299; a 4xx status returns `false`
immediately; anything else (5xx, other non-ok statuses, network errors)
sleeps `BASE_RETRY_DELAY * 2 ** attempt` and retries while attempts remain. -/
def callWebhookAux (responses : Nat → FetchOutcome) :
    Nat → Nat → List Nat → WebhookRun
  | 0, attempt, delays => ⟨false, attempt, delays⟩
  | fuel + 1, attempt, delays =>
    let retry : WebhookRun :=
      if attempt < MAX_RETRIES then
        callWebhookAux responses fuel (attempt + 1)
          (delays ++ [BASE_RETRY_DELAY * 2 ^ attempt])
      else ⟨false, attempt + 1, delays⟩
    match responses attempt with
    | .response s =>
        if 200 ≤ s ∧ s < 300 then ⟨true, attempt + 1, delays⟩
        else if 400 ≤ s ∧ s < 500 then ⟨false, attempt + 1, delays⟩
        else retry
    | .networkError => retry

/-- Embeds `callWebhook` (the delivery loop; URL, payload and headers do not
affect the retry behaviour and are dropped). -/
def callWebhook (responses : Nat → FetchOutcome) : WebhookRun :=
  callWebhookAux responses (MAX_RETRIES + 1) 0 []

/-- The §8 scenario: HTTP 500 on attempts 1-3 and 200 on attempt 4. -/
def scenario500Responses : Nat → FetchOutcome :=
  fun attempt => if attempt < 3 then .response 500 else .response 200

/-- The loop's first branch condition, `response.ok`: an HTTP response with
status 200-299. -/
def outcomeOk : FetchOutcome → Bool
  | .response s => decide (200 ≤ s ∧ s < 300)
  | .networkError => false

/-- The loop's non-retryable branch condition: an HTTP response with a 4xx
status. -/
def outcome4xx : FetchOutcome → Bool
  | .response s => decide (400 ≤ s ∧ s < 500)
  | .networkError => false

/-- Everything the loop retries: network errors and responses that are
neither ok nor 4xx (5xx and other non-ok statuses). -/
def outcomeRetryable (o : FetchOutcome) : Bool := !outcomeOk o && !outcome4xx o

/-! ### Fastmail poll engine (`apps/web/utils/fastmail/poll-sync.ts`) -/

/-- Status field of `PollSyncResult`. -/
inductive PollStatus
  | success | error | skipped | no_changes
deriving Repr, DecidableEq

/-- Embeds the `PollSyncResult` interface. -/
structure PollSyncResult where
  emailAccountId : String
  email : String
  status : PollStatus
  processedCount : Option Nat
  newState : Option String
  errorMsg : Option String
deriving Repr, DecidableEq

/-- The nested `account` relation selected by the poll query. -/
structure OAuthAccount where
  provider : String
  access_token : Option String
  refresh_token : Option String
deriving Repr, DecidableEq

/-- The `emailAccount` row selected by `pollFastmailAccount`.  `enabledRules`
is `rules.length` after the `enabled: true` filter.  `userHasAiAccess` is the
value of `hasAiAccess(premium?.tier, aiApiKey)`; that helper lives in
`utils/premium`, outside the embedded sources, so it enters as a boolean
input. -/
structure EmailAccountRecord where
  email : String
  lastSyncedHistoryId : Option String
  lastPolledAt : Option Int
  oauth : Option OAuthAccount
  enabledRules : Nat
  userHasAiAccess : Bool
deriving Repr, DecidableEq

/-- Behaviour of `createEmailProvider` + `provider.getEmailChanges` for this
poll: either some step of the `try` block throws, or it yields the JMAP
change set (created ids, updated count, new state, pagination flag). -/
inductive ProviderOutcome
  | throwsErr (msg : String)
  | changes (created : List String) (updatedCount : Nat) (newState : String)
      (hasMoreChanges : Bool)
deriving Repr, DecidableEq

/-- The recently-polled guard: skip when not forced and the account was
polled less than two minutes ago (`Date.now() - lastPolledAt < 2*60*1000`). -/
def recentlyPolled (account : EmailAccountRecord) (forceSync : Bool) (now : Int) : Bool :=
  !forceSync &&
    (match account.lastPolledAt with
     | some t => decide (now - t < 2 * 60 * 1000)
     | none => false)

/-- Embeds `pollFastmailAccount`.  The database lookup result is `lookup`;
the guards appear in source order: account not found (error), provider not
fastmail (skipped), recently polled (skipped), no AI access (skipped), no
enabled rules (skipped), missing access token (error); then the provider
either throws (caught as error) or reports changes, yielding `no_changes` or
`success` with the count of created messages whose `processHistoryItem` did
not throw (`processItemFails` tells which ones throw; failures are caught
and only excluded from the count). -/
def pollFastmailAccount (emailAccountId : String)
    (lookup : Option EmailAccountRecord) (forceSync : Bool) (now : Int)
    (provider : ProviderOutcome) (processItemFails : String → Bool) :
    PollSyncResult :=
  match lookup with
  | none => ⟨emailAccountId, "", .error, none, none, some "Account not found"⟩
  | some account =>
    if (account.oauth.map OAuthAccount.provider) ≠ some "fastmail" then
      ⟨emailAccountId, account.email, .skipped, none, none, some "Not a Fastmail account"⟩
    else if recentlyPolled account forceSync now then
      ⟨emailAccountId, account.email, .skipped, none, none, some "Recently polled"⟩
    else if !account.userHasAiAccess then
      ⟨emailAccountId, account.email, .skipped, none, none, some "No AI access"⟩
    else if account.enabledRules = 0 then
      ⟨emailAccountId, account.email, .skipped, none, none, some "No rules enabled"⟩
    else if !strTruthy (account.oauth.bind OAuthAccount.access_token) then
      ⟨emailAccountId, account.email, .error, none, none, some "Missing authentication tokens"⟩
    else
      match provider with
      | .throwsErr msg => ⟨emailAccountId, "", .error, none, none, some msg⟩
      | .changes created updatedCount newState _ =>
        if created.length = 0 ∧ updatedCount = 0 then
          ⟨emailAccountId, account.email, .no_changes, none, some newState, none⟩
        else
          ⟨emailAccountId, account.email, .success,
            some ((created.filter (fun mid => !processItemFails mid)).length),
            some newState, none⟩

/-- A Fastmail account that is fully eligible (AI access, one enabled rule)
but has no stored access token. -/
def c2Account : EmailAccountRecord :=
  ⟨"u@fastmail.com", none, none, some ⟨"fastmail", none, none⟩, 1, true⟩

/-- A Fastmail account with a token and a rule but no plan/API-key access. -/
def c2NoAiAccount : EmailAccountRecord :=
  ⟨"v@fastmail.com", none, none, some ⟨"fastmail", some "tokV", none⟩, 1, false⟩

/-! ### Account manager (`apps/fastmail-eventsource-daemon/src/account-manager.ts`)

Connections are a JS `Map` from account id to a `ManagedAccount`; the client
object of each entry is represented by the numeric id of the
`FastmailEventSourceClient` allocated for it (`nextClient` counts
allocations).  `clientAccount` records which account each client was built
for and `live` holds every client not yet closed. -/

/-- The per-account data `refreshAccounts` works from: the row id plus the
facts `addConnection` branches on (truthy access token, JMAP session fetch
succeeding, session carrying a primary mail account). -/
structure AccountInfo where
  id : String
  email : String
  hasAccessToken : Bool
  sessionOk : Bool
  sessionHasMailAccount : Bool
deriving Repr, DecidableEq

/-- Observable state of the `AccountManager` connections and of every client
it ever constructed. -/
structure DaemonState where
  conns : List (String × Nat)
  nextClient : Nat
  clientAccount : List (Nat × String)
  live : List Nat
deriving Repr, DecidableEq

/-- Embeds `addConnection(account)`: bail out (without touching the map) when
the token is missing, the session fetch fails, or the session has no mail
account; otherwise construct a client, store it under `connections.set`
(overwriting any existing entry, as JS `Map.set` does), and connect it. -/
def addConnection (a : AccountInfo) (st : DaemonState) : DaemonState :=
  if a.hasAccessToken && a.sessionOk && a.sessionHasMailAccount then
    { conns := jmapSet st.conns a.id st.nextClient,
      nextClient := st.nextClient + 1,
      clientAccount := st.clientAccount ++ [(st.nextClient, a.id)],
      live := st.live ++ [st.nextClient] }
  else st

/-- Embeds the removal branch of `refreshAccounts` for one id:
`connections.get(id)?.client.close(); connections.delete(id)`. -/
def removeConnection (id : String) (st : DaemonState) : DaemonState :=
  { st with
    conns := st.conns.filter (fun p => p.1 != id),
    live := match jmapGet st.conns id with
      | some c => st.live.erase c
      | none => st.live }

/-- The removal loop of `refreshAccounts`: iterate the snapshot of currently
managed ids and drop every one absent from the new eligible set. -/
def removePhase (accounts : List AccountInfo) (st : DaemonState) : DaemonState :=
  let currentIds := st.conns.map Prod.fst
  let newIds := accounts.map AccountInfo.id
  currentIds.foldl
    (fun acc id => if newIds.contains id then acc else removeConnection id acc) st

/-- Embeds one complete, uninterrupted `refreshAccounts` cycle with eligible
set `accounts`: snapshot the managed ids, remove the stale connections, then
`addConnection` every account whose id was not in the snapshot. -/
def refreshAccounts (accounts : List AccountInfo) (st : DaemonState) : DaemonState :=
  let currentIds := st.conns.map Prod.fst
  (removePhase accounts st) |> accounts.foldl
    (fun acc a => if currentIds.contains a.id then acc else addConnection a acc)

/-- An in-flight `refreshAccounts` call that has completed its removal loop:
the snapshot of `currentIds` it took, and the eligible accounts it has not
yet passed to `addConnection` (each such call suspends on the JMAP session
fetch before its `connections.set`). -/
structure PendingRefresh where
  snapshot : List String
  queue : List AccountInfo
deriving Repr, DecidableEq

/-- Manager state plus the in-flight refresh cycles (the `setInterval`
handler fires `refreshAccounts` without awaiting the previous run, so several
may be suspended at once). -/
structure SysState where
  ds : DaemonState
  pending : List PendingRefresh
deriving Repr, DecidableEq

/-- Atomic steps of the interleaved execution: `refreshBegin` is the code of
`refreshAccounts` up to its first `addConnection` suspension (eligible-set
fetch result in hand, snapshot and removal loop are synchronous);
`refreshStep i` resumes the i-th in-flight cycle through its next
`addConnection` (guarded by the stale snapshot, exactly as the source checks
`!currentIds.has(account.id)`); `stopCmd` is `stop()` closing and clearing
every managed connection. -/
inductive SysCmd
  | refreshBegin (accounts : List AccountInfo)
  | refreshStep (i : Nat)
  | stopCmd
deriving Repr, DecidableEq

/-- One interleaving step of the account manager. -/
def sysStep (cmd : SysCmd) (s : SysState) : SysState :=
  match cmd with
  | .refreshBegin accounts =>
    let snapshot := s.ds.conns.map Prod.fst
    { ds := removePhase accounts s.ds,
      pending := s.pending ++ [⟨snapshot, accounts⟩] }
  | .refreshStep i =>
    match s.pending[i]? with
    | none => s
    | some pr =>
      match pr.queue with
      | [] => { s with pending := s.pending.eraseIdx i }
      | a :: rest =>
        let ds1 := if pr.snapshot.contains a.id then s.ds else addConnection a s.ds
        { ds := ds1, pending := s.pending.set i ⟨pr.snapshot, rest⟩ }
  | .stopCmd =>
    { ds := { s.ds with
        live := s.ds.conns.foldl (fun lv p => lv.erase p.2) s.ds.live,
        conns := [] },
      pending := s.pending }

/-- Run a sequence of interleaving steps. -/
def sysRun (cmds : List SysCmd) (s : SysState) : SysState :=
  cmds.foldl (fun acc c => sysStep c acc) s

/-- Daemon start state: no connections, no clients, nothing in flight. -/
def sysInit : SysState := ⟨⟨[], 0, [], []⟩, []⟩

/-- An eligible account `x` whose token and JMAP session are fine. -/
def accX : AccountInfo := ⟨"x", "x@fastmail.com", true, true, true⟩

/-- Two refresh cycles for the same new account overlap: both take their
snapshot (both missing `x`) before either resumes its `addConnection`. -/
def c6Trace : List SysCmd :=
  [.refreshBegin [accX], .refreshBegin [accX], .refreshStep 0, .refreshStep 1]

/-! ### IMAP keyword / label adapter (`utils/imap/keywords`, src/unnamed/part_005) -/

/-- Constant `INBOX_ZERO_KEYWORD_PREFIX`. -/
def izKeywordMarker : String := "IZ_"

/-- Constant `INBOX_ZERO_LABELS`: the reserved internal labels, as the
insertion-ordered entries of the source object (key, keyword). -/
def INBOX_ZERO_LABELS : List (String × String) :=
  [("PROCESSED", izKeywordMarker ++ "Processed"),
   ("AI_DRAFT", izKeywordMarker ++ "AIDraft"),
   ("AWAITING_REPLY", izKeywordMarker ++ "AwaitingReply"),
   ("NEEDS_REPLY", izKeywordMarker ++ "NeedsReply"),
   ("COLD_EMAIL", izKeywordMarker ++ "ColdEmail"),
   ("NEWSLETTER", izKeywordMarker ++ "Newsletter")]

/-- Characters the keyword sanitizer keeps: `[a-zA-Z0-9_-]`. -/
def keywordAllowedChar (c : Char) : Bool :=
  c.isAlpha || c.isDigit || c == '_' || c == '-'

/-- Replace every run of whitespace by a single underscore
(`replace(/\s+/g, "_")`); the flag says whether the previous character
belonged to a run already replaced. -/
def wsRunsToUnderscore : Bool → List Char → List Char
  | _, [] => []
  | prevWs, c :: rest =>
    if jsIsWs c then
      if prevWs then wsRunsToUnderscore true rest
      else '_' :: wsRunsToUnderscore true rest
    else c :: wsRunsToUnderscore false rest

/-- Embeds `sanitizeKeyword`: whitespace runs to `_`, drop disallowed
characters, cap at 63 characters. -/
def sanitizeKeyword (keyword : String) : String :=
  String.mk (((wsRunsToUnderscore false keyword.data).filter keywordAllowedChar).take 63)

/-- Embeds `labelToKeyword`: a known reserved label (after upper-casing) maps
to its fixed keyword, anything else is prefixed and sanitized. -/
def labelToKeyword (label : String) : String :=
  let upperLabel := jsToUpper label
  match jmapGet INBOX_ZERO_LABELS upperLabel with
  | some kw => kw
  | none => sanitizeKeyword (izKeywordMarker ++ label)

/-- Embeds `keywordToLabel`: strip the reserved marker, returning the label
key when the keyword is one of the reserved ones. -/
def keywordToLabel (keyword : String) : String :=
  if jsStartsWith keyword izKeywordMarker then
    let stripped := jsDropChars keyword izKeywordMarker.length
    match INBOX_ZERO_LABELS.find? (fun p => p.2 == keyword) with
    | some p => p.1
    | none => stripped
  else keyword

/-- The capability snapshot fields the label adapter branches on. -/
structure ImapCapabilities where
  supportsKeywords : Bool
deriving Repr, DecidableEq

/-- The IMAP operation a smart-label call performs when it succeeds. -/
inductive LabelEffect
  | keywordAdded (uid : Nat) (folder keyword : String)
  | copiedToLabelFolder (uid : Nat) (label sourceFolder : String)
  | keywordRemoved (uid : Nat) (folder keyword : String)
  | removedFromLabelFolder (messageId label : String)
deriving Repr, DecidableEq

/-- Embeds `smartAddLabel`: use the keyword path when supported, else the
folder-copy fallback when a (truthy) messageId was supplied, else throw. -/
def smartAddLabel (uid : Nat) (label : String) (capabilities : ImapCapabilities)
    (folder : String) (messageId : Option String) : Except String LabelEffect :=
  if capabilities.supportsKeywords then
    .ok (.keywordAdded uid folder (labelToKeyword label))
  else if strTruthy messageId then
    .ok (.copiedToLabelFolder uid label folder)
  else
    .error "Cannot add label without keyword support and no message ID provided"

/-- Embeds `smartRemoveLabel`: keyword removal when supported, else locate
and delete the copy in the label folder by Message-ID, else throw. -/
def smartRemoveLabel (uid : Nat) (label : String) (capabilities : ImapCapabilities)
    (folder : String) (messageId : Option String) : Except String LabelEffect :=
  if capabilities.supportsKeywords then
    .ok (.keywordRemoved uid folder (labelToKeyword label))
  else if strTruthy messageId then
    .ok (.removedFromLabelFolder (messageId.getD "") label)
  else
    .error "Cannot remove label without keyword support and no message ID provided"

/-- Concrete reconciliation fixture: accounts `a` and `b` are managed
(clients 0 and 1), and the new eligible set keeps `a`, drops `b`, adds `c`. -/
def c5State : DaemonState := ⟨[("a", 0), ("b", 1)], 2, [(0, "a"), (1, "b")], [0, 1]⟩

/-- Eligible account `a` of the reconciliation fixture. -/
def accA : AccountInfo := ⟨"a", "a@fastmail.com", true, true, true⟩

/-- Newly eligible account `c` of the reconciliation fixture. -/
def accC : AccountInfo := ⟨"c", "c@fastmail.com", true, true, true⟩

/-! ### Theorems -/

/-- C7: `generateThreadId` derives the thread id with the stated precedence:
the (truthy) in-reply-to identifier is hashed first; otherwise the first
reference; otherwise the message's own identifier. -/
theorem generateThreadId_precedence (digest : String → String) (messageId : String)
    (inReplyTo : Option String) (references : List String) (subject : String) :
    (∀ r, inReplyTo = some r → r ≠ "" →
      generateThreadId digest messageId inReplyTo references subject
        = hashToThreadId digest r)
    ∧ ((inReplyTo = none ∨ inReplyTo = some "") → ∀ r rest, references = r :: rest →
      generateThreadId digest messageId inReplyTo references subject
        = hashToThreadId digest r)
    ∧ ((inReplyTo = none ∨ inReplyTo = some "") → references = [] →
      generateThreadId digest messageId inReplyTo references subject
        = hashToThreadId digest messageId) := by
  refine ⟨?_, ?_, ?_⟩
  · intro r hr hne
    subst hr
    simp [generateThreadId, strTruthy, hne]
  · rintro (h | h) r rest hrefs <;> subst h <;> subst hrefs <;>
      simp [generateThreadId, strTruthy]
  · rintro (h | h) hrefs <;> subst h <;> subst hrefs <;>
      simp [generateThreadId, strTruthy]

/-- Witness for C7: a message with in-reply-to `<B>` inherits that thread. -/
theorem generateThreadId_precedence_witness :
    generateThreadId (fun s => s) "a" (some "<B>") ["c"] "subj"
      = hashToThreadId (fun s => s) "<B>" :=
  (generateThreadId_precedence (fun s => s) "a" (some "<B>") ["c"] "subj").1
    "<B>" rfl (by decide)

/-- C1 fails on the code: in the batch `[msgA, msgB, msgC]`, message A's
in-reply-to and references point at B and B's point at C, yet
`groupMessagesIntoThreads` returns A under final thread id `thread_c` while
B and C sit under `thread_d` — the merge map chains
`thread_b -> thread_c -> thread_d` and the single-step lookup of the third
pass does not close the chain. -/
theorem groupMessagesIntoThreads_not_transitive :
    msgA.inReplyTo = some msgB.messageId
    ∧ msgB.messageId ∈ msgA.references
    ∧ msgB.inReplyTo = some msgC.messageId
    ∧ msgC.messageId ∈ msgB.references
    ∧ (groupMessagesIntoThreads [msgA, msgB, msgC]).map
        (fun g => (g.1, g.2.map ImapMessage.messageId))
      = [("thread_c", ["a"]), ("thread_d", ["c", "b"])] := by
  refine ⟨rfl, ?_, rfl, ?_, ?_⟩ <;> decide

/-- C2 fails on the code: a fully eligible Fastmail account (AI access, an
enabled rule) whose stored access token is missing is reported with status
`error` ("Missing authentication tokens"), not `skipped`. -/
theorem pollFastmailAccount_missingToken_error :
    (pollFastmailAccount "acct1" (some c2Account) true 0
        (.changes [] 0 "s1" false) (fun _ => false)).status = .error
    ∧ (pollFastmailAccount "acct1" (some c2Account) true 0
        (.changes [] 0 "s1" false) (fun _ => false)).status ≠ .skipped := by
  refine ⟨?_, ?_⟩ <;> decide

/-- C2 amended: for a found Fastmail account, lacking any enabled rule or
lacking plan/API-key access yields status `skipped`; lacking the stored
access credential instead yields status `error` (once the skip guards before
the token check do not fire). -/
theorem pollFastmailAccount_skip_policy (emailAccountId : String)
    (account : EmailAccountRecord) (forceSync : Bool) (now : Int)
    (provider : ProviderOutcome) (pf : String → Bool)
    (hprov : account.oauth.map OAuthAccount.provider = some "fastmail") :
    ((account.userHasAiAccess = false ∨ account.enabledRules = 0) →
      (pollFastmailAccount emailAccountId (some account) forceSync now provider pf).status
        = .skipped)
    ∧ (strTruthy (account.oauth.bind OAuthAccount.access_token) = false →
       account.userHasAiAccess = true → account.enabledRules ≠ 0 →
       recentlyPolled account forceSync now = false →
      (pollFastmailAccount emailAccountId (some account) forceSync now provider pf).status
        = .error) := by
  constructor
  · intro h
    simp only [pollFastmailAccount, hprov]
    rcases h with h | h <;>
      · split_ifs <;> simp_all
  · intro htok hai hrules hrecent
    simp only [pollFastmailAccount, hprov]
    split_ifs <;> simp_all

/-- Witness for the amended C2: an account without AI access is skipped, an
account without a token errors. -/
theorem pollFastmailAccount_skip_policy_witness :
    (pollFastmailAccount "a1" (some c2NoAiAccount) true 0
        (.changes [] 0 "s" false) (fun _ => false)).status = .skipped
    ∧ (pollFastmailAccount "a1" (some c2Account) true 0
        (.changes [] 0 "s" false) (fun _ => false)).status = .error := by
  have h1 := (pollFastmailAccount_skip_policy "a1" c2NoAiAccount true 0
      (.changes [] 0 "s" false) (fun _ => false) rfl).1 (Or.inl rfl)
  have h2 := (pollFastmailAccount_skip_policy "a1" c2Account true 0
      (.changes [] 0 "s" false) (fun _ => false) rfl).2 rfl rfl
      (by decide) (by decide)
  exact ⟨h1, h2⟩

/-- C6 fails on the code: two overlapping `refreshAccounts` cycles (the
`setInterval` handler does not await the previous run) both snapshot a state
without account `x`, so both resume `addConnection` after their session
fetches; the second `connections.set` overwrites the first entry without
closing its client, leaving two live clients built for the same account id,
only one of them reachable from the map. -/
theorem accountManager_duplicate_live_clients :
    (sysRun c6Trace sysInit).ds.live = [0, 1]
    ∧ (sysRun c6Trace sysInit).ds.clientAccount = [(0, "x"), (1, "x")]
    ∧ (sysRun c6Trace sysInit).ds.conns = [("x", 1)]
    ∧ jmapGet (sysRun c6Trace sysInit).ds.conns "x" ≠ some 0 := by
  refine ⟨?_, ?_, ?_, ?_⟩ <;> decide

/-- C8: every reserved internal keyword round-trips through
`keywordToLabel` then `labelToKeyword` unchanged. -/
theorem labelKeyword_roundTrip :
    ∀ k ∈ INBOX_ZERO_LABELS.map Prod.snd,
      labelToKeyword (keywordToLabel k) = k := by decide

/-- Witness for C8: the `IZ_Processed` keyword round-trips. -/
theorem labelKeyword_roundTrip_witness :
    labelToKeyword (keywordToLabel "IZ_Processed") = "IZ_Processed" :=
  labelKeyword_roundTrip "IZ_Processed" (by decide)

/-- C9: with no keyword support and no message id supplied, `smartAddLabel`
and `smartRemoveLabel` both raise (return an error) instead of returning
normally without an effect. -/
theorem smartLabel_noKeyword_noMessageId_raises (uid : Nat) (label folder : String)
    (capabilities : ImapCapabilities) (h : capabilities.supportsKeywords = false) :
    (∃ msg, smartAddLabel uid label capabilities folder none = .error msg)
    ∧ (∃ msg, smartRemoveLabel uid label capabilities folder none = .error msg) := by
  refine
    ⟨⟨"Cannot add label without keyword support and no message ID provided", ?_⟩,
     ⟨"Cannot remove label without keyword support and no message ID provided", ?_⟩⟩ <;>
    simp [smartAddLabel, smartRemoveLabel, h, strTruthy]

/-- Witness for C9 at a concrete configuration. -/
theorem smartLabel_noKeyword_noMessageId_raises_witness :
    (∃ msg, smartAddLabel 7 "Newsletter" ⟨false⟩ "INBOX" none = .error msg)
    ∧ (∃ msg, smartRemoveLabel 7 "Newsletter" ⟨false⟩ "INBOX" none = .error msg) :=
  smartLabel_noKeyword_noMessageId_raises 7 "Newsletter" "INBOX" ⟨false⟩ rfl

/-- C10: updating the access token of a client that is not connected
(including one waiting out a reconnect backoff) stores the new token, cancels
any pending reconnect timer, opens no connection and schedules no reconnect;
the client stays disconnected (and its closed flag is untouched). -/
theorem updateAccessToken_whileDisconnected (s : ESClientState) (tok : String)
    (h : esIsConnected s = false) :
    (updateAccessToken s tok).accessToken = tok
    ∧ (updateAccessToken s tok).reconnectTimerPending = false
    ∧ (updateAccessToken s tok).esPresent = false
    ∧ (updateAccessToken s tok).scheduledDelays = s.scheduledDelays
    ∧ esIsConnected (updateAccessToken s tok) = false
    ∧ (updateAccessToken s tok).closed = s.closed := by
  simp only [updateAccessToken]
  simp only [h]
  simp [esDisconnect, esIsConnected]

/-- Witness for C10 on a client waiting out its backoff delay. -/
theorem updateAccessToken_whileDisconnected_witness :
    (updateAccessToken esBackoffState "tokNew").accessToken = "tokNew"
    ∧ (updateAccessToken esBackoffState "tokNew").reconnectTimerPending = false
    ∧ (updateAccessToken esBackoffState "tokNew").esPresent = false
    ∧ (updateAccessToken esBackoffState "tokNew").scheduledDelays
        = esBackoffState.scheduledDelays := by
  have h := updateAccessToken_whileDisconnected esBackoffState "tokNew" (by decide)
  exact ⟨h.1, h.2.1, h.2.2.1, h.2.2.2.1⟩

/-- A closed client is a fixed point of `handleDisconnect`. -/
theorem handleDisconnect_closed_fixed (t : ESClientState) (h : t.closed = true) :
    handleDisconnect t = t := by
  simp [handleDisconnect, h]

/-- `handleDisconnect` never clears a surfaced fatal error. -/
theorem handleDisconnect_preserves_fatal (t : ESClientState)
    (h : t.fatalErrorSurfaced = true) :
    (handleDisconnect t).fatalErrorSurfaced = true := by
  unfold handleDisconnect
  split_ifs <;> simp [h]

/-- Iterated form of `handleDisconnect_preserves_fatal`. -/
theorem handleDisconnect_iter_preserves_fatal (n : Nat) :
    ∀ t : ESClientState, t.fatalErrorSurfaced = true →
      (handleDisconnect^[n] t).fatalErrorSurfaced = true := by
  induction n with
  | zero => intro t h; simpa using h
  | succ n ih =>
    intro t h
    rw [Function.iterate_succ_apply]
    exact ih _ (handleDisconnect_preserves_fatal t h)

/-- Delay log of `n` consecutive `handleDisconnect` calls on a non-closed
client: one entry per attempt until the counter hits the cap, each equal to
the capped exponential backoff at the counter value it was scheduled with. -/
theorem handleDisconnect_iter_delays (n : Nat) :
    ∀ s : ESClientState, s.closed = false →
      (handleDisconnect^[n] s).scheduledDelays
        = s.scheduledDelays
          ++ (List.range' s.reconnectAttempts
                (min n (maxReconnectAttempts - s.reconnectAttempts))).map
              (fun k => min (baseReconnectDelay * 2 ^ k) maxReconnectDelay) := by
  induction n with
  | zero => intro s hc; simp
  | succ n ih =>
    intro s hc
    rw [Function.iterate_succ_apply]
    by_cases hcap : maxReconnectAttempts ≤ s.reconnectAttempts
    · have hstep : handleDisconnect s = { s with fatalErrorSurfaced := true } := by
        simp [handleDisconnect, hc, hcap]
      rw [hstep, ih _ (by simpa using hc)]
      have hz : maxReconnectAttempts - s.reconnectAttempts = 0 := by omega
      simp [hz]
    · push_neg at hcap
      have hstep : handleDisconnect s
          = { s with
              reconnectAttempts := s.reconnectAttempts + 1,
              reconnectTimerPending := true,
              scheduledDelays := s.scheduledDelays ++
                [min (baseReconnectDelay * 2 ^ s.reconnectAttempts) maxReconnectDelay] } := by
        have hcap2 : ¬ maxReconnectAttempts ≤ s.reconnectAttempts := by omega
        simp [handleDisconnect, hc, hcap2]
      rw [hstep, ih _ (by simpa using hc)]
      simp only []
      have hsub : min (n + 1) (maxReconnectAttempts - s.reconnectAttempts)
          = min n (maxReconnectAttempts - (s.reconnectAttempts + 1)) + 1 := by
        omega
      rw [hsub, List.range'_succ]
      simp [List.append_assoc]

/-- Fatal-error flag after `n` consecutive `handleDisconnect` calls: set
exactly when some call found the counter at the cap. -/
theorem handleDisconnect_iter_fatal (n : Nat) :
    ∀ s : ESClientState, s.closed = false → s.fatalErrorSurfaced = false →
      s.reconnectAttempts ≤ maxReconnectAttempts →
      (handleDisconnect^[n] s).fatalErrorSurfaced
        = decide (maxReconnectAttempts < s.reconnectAttempts + n) := by
  induction n with
  | zero =>
    intro s hc hf ha
    rw [Function.iterate_zero_apply, hf]
    symm
    rw [decide_eq_false_iff_not]
    omega
  | succ n ih =>
    intro s hc hf ha
    rw [Function.iterate_succ_apply]
    by_cases hcap : maxReconnectAttempts ≤ s.reconnectAttempts
    · have hstep : handleDisconnect s = { s with fatalErrorSurfaced := true } := by
        simp [handleDisconnect, hc, hcap]
      rw [hstep, handleDisconnect_iter_preserves_fatal n _ (by simp)]
      symm
      rw [decide_eq_true_iff]
      omega
    · push_neg at hcap
      have hstep : handleDisconnect s
          = { s with
              reconnectAttempts := s.reconnectAttempts + 1,
              reconnectTimerPending := true,
              scheduledDelays := s.scheduledDelays ++
                [min (baseReconnectDelay * 2 ^ s.reconnectAttempts) maxReconnectDelay] } := by
        have hcap2 : ¬ maxReconnectAttempts ≤ s.reconnectAttempts := by omega
        simp [handleDisconnect, hc, hcap2]
      rw [hstep, ih _ (by simpa using hc) (by simpa using hf) (by simp; omega)]
      have : s.reconnectAttempts + 1 + n = s.reconnectAttempts + (n + 1) := by omega
      simp only [this]

/-- C3: starting from a freshly (re)connected client, the Nth scheduled
reconnect delay (N starting at 1) is `min(1000 * 2 ** (N-1), 300000)`; no
reconnect is scheduled from the 11th consecutive disconnect on — a fatal
error is surfaced to the caller exactly then; and a closed client never
schedules a reconnect (`handleDisconnect` leaves it unchanged). -/
theorem handleDisconnect_backoff (n : Nat) (s : ESClientState)
    (h0 : s.reconnectAttempts = 0) (hc : s.closed = false)
    (hd : s.scheduledDelays = []) (hf : s.fatalErrorSurfaced = false) :
    (handleDisconnect^[n] s).scheduledDelays
      = (List.range (min n maxReconnectAttempts)).map
          (fun k => min (baseReconnectDelay * 2 ^ k) maxReconnectDelay)
    ∧ ((handleDisconnect^[n] s).fatalErrorSurfaced
        = decide (maxReconnectAttempts < n))
    ∧ ∀ t : ESClientState, t.closed = true → handleDisconnect t = t := by
  refine ⟨?_, ?_, fun t ht => handleDisconnect_closed_fixed t ht⟩
  · rw [handleDisconnect_iter_delays n s hc, h0, hd, List.range_eq_range']
    simp
  · rw [handleDisconnect_iter_fatal n s hc hf (by omega), h0]
    simp

/-- Witness for C3: eleven consecutive disconnects on a fresh client log the
ten capped exponential delays and surface the fatal error. -/
theorem handleDisconnect_backoff_witness :
    (handleDisconnect^[11] esInitState).scheduledDelays
      = (List.range 10).map (fun k => min (1000 * 2 ^ k) 300000)
    ∧ (handleDisconnect^[11] esInitState).fatalErrorSurfaced = true := by
  have h := handleDisconnect_backoff 11 esInitState rfl rfl rfl rfl
  exact ⟨h.1, h.2.1⟩

/-- Attempt count and delay log of the `callWebhook` loop, for any remaining
fuel consistent with the loop bound: at most `MAX_RETRIES + 1` attempts are
ever made, and the recorded backoff delays are exactly
`BASE_RETRY_DELAY * 2 ** k` for the attempts actually retried. -/
theorem callWebhookAux_spec (responses : Nat → FetchOutcome) :
    ∀ (fuel attempt : Nat) (delays : List Nat),
      attempt + fuel = MAX_RETRIES + 1 →
      (callWebhookAux responses fuel attempt delays).attemptsMade ≤ MAX_RETRIES + 1
      ∧ (attempt ≤ MAX_RETRIES →
          attempt < (callWebhookAux responses fuel attempt delays).attemptsMade
          ∧ (callWebhookAux responses fuel attempt delays).delays
            = delays ++ (List.range' attempt
                ((callWebhookAux responses fuel attempt delays).attemptsMade - 1 - attempt)).map
                (fun k => BASE_RETRY_DELAY * 2 ^ k)) := by
  intro fuel
  induction fuel with
  | zero =>
    intro attempt delays hsum
    constructor
    · simp [callWebhookAux]
      omega
    · intro hle
      omega
  | succ fuel ih =>
    intro attempt delays hsum
    have hle : attempt ≤ MAX_RETRIES := by omega
    have hnoret :
        ∀ r : WebhookRun, r = ⟨r.result, attempt + 1, delays⟩ →
          r.attemptsMade ≤ MAX_RETRIES + 1
          ∧ (attempt ≤ MAX_RETRIES →
              attempt < r.attemptsMade
              ∧ r.delays = delays ++ (List.range' attempt
                  (r.attemptsMade - 1 - attempt)).map
                  (fun k => BASE_RETRY_DELAY * 2 ^ k)) := by
      intro r hr
      rw [hr]
      refine ⟨by simp; omega, fun _ => ⟨by simp, ?_⟩⟩
      simp
    have hretry :
        (if attempt < MAX_RETRIES then
            callWebhookAux responses fuel (attempt + 1)
              (delays ++ [BASE_RETRY_DELAY * 2 ^ attempt])
          else (⟨false, attempt + 1, delays⟩ : WebhookRun)).attemptsMade
            ≤ MAX_RETRIES + 1
        ∧ (attempt ≤ MAX_RETRIES →
            attempt < (if attempt < MAX_RETRIES then
                callWebhookAux responses fuel (attempt + 1)
                  (delays ++ [BASE_RETRY_DELAY * 2 ^ attempt])
              else (⟨false, attempt + 1, delays⟩ : WebhookRun)).attemptsMade
            ∧ (if attempt < MAX_RETRIES then
                callWebhookAux responses fuel (attempt + 1)
                  (delays ++ [BASE_RETRY_DELAY * 2 ^ attempt])
              else (⟨false, attempt + 1, delays⟩ : WebhookRun)).delays
              = delays ++ (List.range' attempt
                  ((if attempt < MAX_RETRIES then
                      callWebhookAux responses fuel (attempt + 1)
                        (delays ++ [BASE_RETRY_DELAY * 2 ^ attempt])
                    else (⟨false, attempt + 1, delays⟩ : WebhookRun)).attemptsMade
                      - 1 - attempt)).map
                  (fun k => BASE_RETRY_DELAY * 2 ^ k)) := by
      by_cases hlt : attempt < MAX_RETRIES
      · rw [if_pos hlt]
        obtain ⟨iha, ihb⟩ := ih (attempt + 1)
          (delays ++ [BASE_RETRY_DELAY * 2 ^ attempt]) (by omega)
        obtain ⟨ihc, ihd⟩ := ihb (by omega)
        refine ⟨iha, fun _ => ⟨by omega, ?_⟩⟩
        rw [ihd]
        have hm : (callWebhookAux responses fuel (attempt + 1)
            (delays ++ [BASE_RETRY_DELAY * 2 ^ attempt])).attemptsMade - 1 - attempt
            = ((callWebhookAux responses fuel (attempt + 1)
                (delays ++ [BASE_RETRY_DELAY * 2 ^ attempt])).attemptsMade - 1
                - (attempt + 1)) + 1 := by omega
        rw [hm, List.range'_succ]
        simp [List.append_assoc]
      · rw [if_neg hlt]
        have ha : attempt = MAX_RETRIES := by omega
        refine ⟨by simp; omega, fun _ => ⟨by simp, ?_⟩⟩
        simp [ha]
    show (callWebhookAux responses (fuel + 1) attempt delays).attemptsMade ≤ MAX_RETRIES + 1 ∧ _
    rw [callWebhookAux]
    cases hresp : responses attempt with
    | response s =>
      dsimp only
      by_cases h2 : 200 ≤ s ∧ s < 300
      · rw [if_pos h2]
        exact hnoret ⟨true, attempt + 1, delays⟩ rfl
      · rw [if_neg h2]
        by_cases h4 : 400 ≤ s ∧ s < 500
        · rw [if_pos h4]
          exact hnoret ⟨false, attempt + 1, delays⟩ rfl
        · rw [if_neg h4]
          exact hretry
    | networkError =>
      dsimp only
      exact hretry

/-- One loop step of `callWebhook` on a retryable outcome: sleep the capped
exponential delay and move to the next attempt (attempts remaining), or give
up after the last attempt. -/
theorem callWebhookAux_retry_step (responses : Nat → FetchOutcome)
    (f attempt : Nat) (delays : List Nat)
    (hret : outcomeRetryable (responses attempt) = true) :
    callWebhookAux responses (f + 1) attempt delays
      = if attempt < MAX_RETRIES then
          callWebhookAux responses f (attempt + 1)
            (delays ++ [BASE_RETRY_DELAY * 2 ^ attempt])
        else ⟨false, attempt + 1, delays⟩ := by
  rw [callWebhookAux]
  cases hresp : responses attempt with
  | response s =>
    dsimp only
    rw [hresp] at hret
    have hok : ¬ (200 ≤ s ∧ s < 300) := by
      intro hcon
      simp [outcomeRetryable, outcomeOk, outcome4xx, hcon] at hret
    have h4x : ¬ (400 ≤ s ∧ s < 500) := by
      intro hcon
      simp [outcomeRetryable, outcomeOk, outcome4xx, hcon] at hret
    rw [if_neg hok, if_neg h4x]
  | networkError => dsimp only

/-- Running the `callWebhook` loop over `i` retryable outcomes: the outcome
of the first attempt that is ok or 4xx decides the run right there — a 4xx
returns `false` and an ok status returns `true`, in both cases after exactly
`i` retries whose delays are the capped exponential schedule, with no further
attempt. -/
theorem callWebhookAux_decides (responses : Nat → FetchOutcome) :
    ∀ (i fuel attempt : Nat) (delays : List Nat),
      attempt + fuel = MAX_RETRIES + 1 →
      attempt + i < MAX_RETRIES + 1 →
      (∀ j, j < i → outcomeRetryable (responses (attempt + j)) = true) →
      (outcome4xx (responses (attempt + i)) = true →
        callWebhookAux responses fuel attempt delays
          = ⟨false, attempt + i + 1,
              delays ++ (List.range' attempt i).map
                (fun k => BASE_RETRY_DELAY * 2 ^ k)⟩)
      ∧ (outcomeOk (responses (attempt + i)) = true →
        callWebhookAux responses fuel attempt delays
          = ⟨true, attempt + i + 1,
              delays ++ (List.range' attempt i).map
                (fun k => BASE_RETRY_DELAY * 2 ^ k)⟩) := by
  intro i
  induction i with
  | zero =>
    intro fuel attempt delays hsum hlt _
    obtain ⟨f, rfl⟩ : ∃ f, fuel = f + 1 := ⟨fuel - 1, by omega⟩
    simp only [Nat.add_zero]
    constructor
    · intro h4
      rw [callWebhookAux]
      cases hresp : responses attempt with
      | response s =>
        dsimp only
        rw [hresp] at h4
        have hs : 400 ≤ s ∧ s < 500 := by simpa [outcome4xx] using h4
        have hok : ¬ (200 ≤ s ∧ s < 300) := by omega
        rw [if_neg hok, if_pos hs]
        simp
      | networkError =>
        rw [hresp] at h4
        simp [outcome4xx] at h4
    · intro hok
      rw [callWebhookAux]
      cases hresp : responses attempt with
      | response s =>
        dsimp only
        rw [hresp] at hok
        have hs : 200 ≤ s ∧ s < 300 := by simpa [outcomeOk] using hok
        rw [if_pos hs]
        simp
      | networkError =>
        rw [hresp] at hok
        simp [outcomeOk] at hok
  | succ i ih =>
    intro fuel attempt delays hsum hlt hpre
    have hM : MAX_RETRIES = 3 := rfl
    have hret : outcomeRetryable (responses attempt) = true := by
      have h := hpre 0 (by omega)
      simpa using h
    have hatt3 : attempt < MAX_RETRIES := by omega
    obtain ⟨f, rfl⟩ : ∃ f, fuel = f + 1 := ⟨fuel - 1, by omega⟩
    have hstep := callWebhookAux_retry_step responses f attempt delays hret
    rw [if_pos hatt3] at hstep
    have hpre2 : ∀ j, j < i → outcomeRetryable (responses (attempt + 1 + j)) = true := by
      intro j hj
      have h := hpre (j + 1) (by omega)
      rw [show attempt + 1 + j = attempt + (j + 1) from by omega]
      exact h
    have hidx : attempt + (i + 1) = attempt + 1 + i := by omega
    have hout : ⟨false, attempt + 1 + i + 1,
          (delays ++ [BASE_RETRY_DELAY * 2 ^ attempt])
            ++ (List.range' (attempt + 1) i).map (fun k => BASE_RETRY_DELAY * 2 ^ k)⟩
        = (⟨false, attempt + (i + 1) + 1,
            delays ++ (List.range' attempt (i + 1)).map
              (fun k => BASE_RETRY_DELAY * 2 ^ k)⟩ : WebhookRun) := by
      rw [List.range'_succ]
      simp [List.append_assoc]
      omega
    have hout2 : ⟨true, attempt + 1 + i + 1,
          (delays ++ [BASE_RETRY_DELAY * 2 ^ attempt])
            ++ (List.range' (attempt + 1) i).map (fun k => BASE_RETRY_DELAY * 2 ^ k)⟩
        = (⟨true, attempt + (i + 1) + 1,
            delays ++ (List.range' attempt (i + 1)).map
              (fun k => BASE_RETRY_DELAY * 2 ^ k)⟩ : WebhookRun) := by
      rw [List.range'_succ]
      simp [List.append_assoc]
      omega
    constructor
    · intro h4
      rw [hidx] at h4
      rw [hstep,
        (ih f (attempt + 1) (delays ++ [BASE_RETRY_DELAY * 2 ^ attempt])
          (by omega) (by omega) hpre2).1 h4]
      exact hout
    · intro hok
      rw [hidx] at hok
      rw [hstep,
        (ih f (attempt + 1) (delays ++ [BASE_RETRY_DELAY * 2 ^ attempt])
          (by omega) (by omega) hpre2).2 hok]
      exact hout2

/-- When every remaining attempt's outcome is retryable, the loop spends all
its attempts, sleeps the capped exponential delays between them, and returns
`false`. -/
theorem callWebhookAux_exhausts (responses : Nat → FetchOutcome) :
    ∀ (fuel attempt : Nat) (delays : List Nat),
      attempt + fuel = MAX_RETRIES + 1 →
      (∀ j, attempt ≤ j → j < MAX_RETRIES + 1 →
        outcomeRetryable (responses j) = true) →
      callWebhookAux responses fuel attempt delays
        = ⟨false, MAX_RETRIES + 1,
            delays ++ (List.range' attempt (MAX_RETRIES - attempt)).map
              (fun k => BASE_RETRY_DELAY * 2 ^ k)⟩ := by
  intro fuel
  induction fuel with
  | zero =>
    intro attempt delays hsum hpre
    have ha : attempt = MAX_RETRIES + 1 := by omega
    subst ha
    simp [callWebhookAux]
  | succ f ih =>
    intro attempt delays hsum hpre
    have hM : MAX_RETRIES = 3 := rfl
    have hret := hpre attempt (Nat.le_refl _) (by omega)
    have hstep := callWebhookAux_retry_step responses f attempt delays hret
    by_cases hatt : attempt < MAX_RETRIES
    · rw [if_pos hatt] at hstep
      rw [hstep, ih (attempt + 1) _ (by omega)
        (fun j hj1 hj2 => hpre j (by omega) hj2)]
      have hsub : MAX_RETRIES - attempt = (MAX_RETRIES - (attempt + 1)) + 1 := by
        omega
      rw [hsub, List.range'_succ]
      simp [List.append_assoc]
    · rw [if_neg hatt] at hstep
      rw [hstep]
      have ha : attempt = MAX_RETRIES := by omega
      subst ha
      simp

/-- C4: for every run of `callWebhook` — a 4xx arriving at any reachable
attempt (all earlier outcomes retryable) returns `false` at exactly that
attempt, with no further attempt and only the earlier retries' delays
`1000 * 2 ** k`; an ok status at any reachable attempt likewise succeeds
right there, so 5xx/network failures really are retried with delays 1s, 2s,
4s before attempts 2, 3, 4; four retryable outcomes exhaust the run at 4
attempts; attempts never exceed 4 and the delay log always matches the
schedule; and the §8 scenario (500 on attempts 1-3, 200 on attempt 4)
succeeds after 4 attempts with delays 1s, 2s, 4s. -/
theorem callWebhook_retry_policy :
    (∀ (responses : Nat → FetchOutcome) (i : Nat), i < 4 →
      (∀ j, j < i → outcomeRetryable (responses j) = true) →
      outcome4xx (responses i) = true →
      callWebhook responses
        = ⟨false, i + 1, (List.range i).map (fun k => 1000 * 2 ^ k)⟩)
    ∧ (∀ (responses : Nat → FetchOutcome) (i : Nat), i < 4 →
      (∀ j, j < i → outcomeRetryable (responses j) = true) →
      outcomeOk (responses i) = true →
      callWebhook responses
        = ⟨true, i + 1, (List.range i).map (fun k => 1000 * 2 ^ k)⟩)
    ∧ (∀ responses : Nat → FetchOutcome,
      (∀ j, j < 4 → outcomeRetryable (responses j) = true) →
      callWebhook responses = ⟨false, 4, [1000, 2000, 4000]⟩)
    ∧ (∀ responses : Nat → FetchOutcome,
        (callWebhook responses).attemptsMade ≤ 4
        ∧ (callWebhook responses).delays
          = (List.range ((callWebhook responses).attemptsMade - 1)).map
              (fun k => 1000 * 2 ^ k))
    ∧ callWebhook scenario500Responses = ⟨true, 4, [1000, 2000, 4000]⟩ := by
  refine ⟨?_, ?_, ?_, ?_, by decide⟩
  · intro responses i hi hpre h4
    have h := (callWebhookAux_decides responses i (MAX_RETRIES + 1) 0 [] rfl
      (by show 0 + i < 4; omega)
      (fun j hj => by rw [Nat.zero_add]; exact hpre j hj)).1
      (by rw [Nat.zero_add]; exact h4)
    show callWebhookAux responses (MAX_RETRIES + 1) 0 [] = _
    rw [h]
    simp [List.range_eq_range', BASE_RETRY_DELAY]
  · intro responses i hi hpre hok
    have h := (callWebhookAux_decides responses i (MAX_RETRIES + 1) 0 [] rfl
      (by show 0 + i < 4; omega)
      (fun j hj => by rw [Nat.zero_add]; exact hpre j hj)).2
      (by rw [Nat.zero_add]; exact hok)
    show callWebhookAux responses (MAX_RETRIES + 1) 0 [] = _
    rw [h]
    simp [List.range_eq_range', BASE_RETRY_DELAY]
  · intro responses hpre
    have h := callWebhookAux_exhausts responses (MAX_RETRIES + 1) 0 [] rfl
      (fun j _ hj2 => hpre j hj2)
    show callWebhookAux responses (MAX_RETRIES + 1) 0 [] = _
    rw [h]
    decide
  · intro responses
    obtain ⟨ha, hb⟩ := callWebhookAux_spec responses (MAX_RETRIES + 1) 0 [] rfl
    obtain ⟨hc, hd⟩ := hb (by omega)
    refine ⟨ha, ?_⟩
    show (callWebhook responses).delays = _
    rw [show callWebhook responses = callWebhookAux responses (MAX_RETRIES + 1) 0 [] from rfl,
        hd, List.range_eq_range']
    simp [BASE_RETRY_DELAY]

/-- Witness for C4: a 404 on the first attempt fails immediately with no
retries, and a 404 on the second attempt — after a retried 500 — fails at
attempt 2 having slept exactly the 1s backoff. -/
theorem callWebhook_retry_policy_witness :
    callWebhook (fun _ => .response 404) = ⟨false, 1, []⟩
    ∧ callWebhook (fun n => if n = 0 then .response 500 else .response 404)
        = ⟨false, 2, [1000]⟩ := by
  constructor
  · exact callWebhook_retry_policy.1 (fun _ => .response 404) 0 (by decide)
      (fun j hj => absurd hj (by omega)) (by decide)
  · exact callWebhook_retry_policy.1
      (fun n => if n = 0 then .response 500 else .response 404) 1 (by decide)
      (fun j hj => by
        have hj0 : j = 0 := by omega
        subst hj0
        decide)
      (by decide)

/-- A successful `jmapGet` exhibits a member of the list. -/
theorem jmapGet_mem {α : Type} (l : List (String × α)) (k : String) (v : α)
    (h : jmapGet l k = some v) : (k, v) ∈ l := by
  unfold jmapGet at h
  cases hf : l.find? (fun p => p.1 == k) with
  | none =>
    rw [hf] at h
    exact Option.noConfusion h
  | some p =>
    rw [hf] at h
    obtain ⟨a, b⟩ := p
    have hm := List.mem_of_find?_eq_some hf
    have hp := List.find?_some hf
    have hak : a = k := by simpa using hp
    have hbv : b = v := by simpa using h
    rw [← hak, ← hbv]
    exact hm

/-- A key absent from the key list yields `none`. -/
theorem jmapGet_eq_none_of_not_mem {α : Type} (l : List (String × α)) (k : String)
    (h : k ∉ l.map Prod.fst) : jmapGet l k = none := by
  unfold jmapGet
  rw [List.find?_eq_none.mpr]
  · rfl
  · intro p hp hpk
    exact h (List.mem_map.mpr ⟨p, hp, by simpa using hpk⟩)

/-- Filtering out another key leaves a lookup unchanged. -/
theorem jmapGet_filter_ne {α : Type} (l : List (String × α)) (k id : String)
    (h : k ≠ id) :
    jmapGet (l.filter (fun p => p.1 != id)) k = jmapGet l k := by
  unfold jmapGet
  rw [List.find?_filter]
  have hpred : (fun p : String × α => decide ((p.1 != id) = true ∧ (p.1 == k) = true))
      = (fun p : String × α => p.1 == k) := by
    funext p
    by_cases hpk : p.1 = k
    · have h1 : (p.1 != id) = true := by
        rw [hpk]
        simpa using h
      simp [h1, hpk, h]
    · simp [hpk]
  rw [hpred]

/-- Filtering never resurrects an absent key. -/
theorem jmapGet_filter_none {α : Type} (l : List (String × α)) (k : String)
    (q : String × α → Bool) (h : jmapGet l k = none) :
    jmapGet (l.filter q) k = none := by
  unfold jmapGet at h ⊢
  rw [List.find?_filter]
  cases hg : l.find? (fun p => p.1 == k) with
  | some r =>
    rw [hg] at h
    exact Option.noConfusion h
  | none =>
    rw [List.find?_eq_none.mpr]
    · rfl
    · intro p hp hcomb
      have hk : (p.1 == k) = true := by
        simpa using (of_decide_eq_true hcomb).2
      exact (List.find?_eq_none.mp hg p hp) hk

/-- `jmapSet` with a different key leaves a lookup unchanged. -/
theorem jmapGet_set_ne {α : Type} (l : List (String × α)) (k k' : String) (v : α)
    (h : k' ≠ k) :
    jmapGet (jmapSet l k v) k' = jmapGet l k' := by
  unfold jmapGet jmapSet
  by_cases hmem : l.any (fun p => p.1 == k)
  · rw [if_pos hmem, List.find?_map, Option.map_map]
    have hpred : ((fun p : String × α => p.1 == k')
          ∘ (fun p => if p.1 == k then (k, v) else p))
        = (fun p : String × α => p.1 == k') := by
      funext p
      by_cases hpk : p.1 = k
      · have h1 : (p.1 == k) = true := by simpa using hpk
        have h2 : (k == k') = false := by simpa using (Ne.symm h)
        have h3 : (p.1 == k') = false := by
          rw [hpk]
          exact h2
        simp [Function.comp, h1, h2, h3]
      · have h1 : (p.1 == k) = false := by simpa using hpk
        simp [Function.comp, h1]
    rw [hpred]
    cases hg : l.find? (fun p : String × α => p.1 == k') with
    | none => rfl
    | some p =>
      have hp := List.find?_some hg
      have hp2 : p.1 = k' := by simpa using hp
      have hne : ¬ p.1 = k := by
        rw [hp2]
        exact h
      simp [Function.comp, hne]
  · rw [if_neg hmem, List.find?_append]
    cases hg : l.find? (fun p : String × α => p.1 == k') with
    | some r => rfl
    | none =>
      have h2 : (k == k') = false := by simpa using (Ne.symm h)
      simp [List.find?_cons, h2]

/-- With pairwise-distinct client values, the key holding a given client is
unique. -/
theorem values_nodup_unique (l : List (String × Nat))
    (hv : (l.map Prod.snd).Nodup) (k : String) (c : Nat)
    (hm : (k, c) ∈ l) : ∀ p ∈ l, p.2 = c → p.1 = k := by
  intro p hp hpc
  have := List.inj_on_of_nodup_map hv hp hm (by simpa using hpc)
  rw [this]

/-- One removal step of the reconciliation loop, applied to some other id,
keeps a retained entry, the uniqueness of its client, and its liveness. -/
theorem removeConnection_preserves (idr : String) (t : DaemonState) (k : String) (c : Nat)
    (hkne : k ≠ idr)
    (h1 : jmapGet t.conns k = some c)
    (h2 : ∀ p ∈ t.conns, p.2 = c → p.1 = k)
    (h3 : c ∈ t.live) :
    jmapGet (removeConnection idr t).conns k = some c
    ∧ (∀ p ∈ (removeConnection idr t).conns, p.2 = c → p.1 = k)
    ∧ c ∈ (removeConnection idr t).live := by
  refine ⟨?_, ?_, ?_⟩
  · show jmapGet (t.conns.filter (fun p => p.1 != idr)) k = some c
    rw [jmapGet_filter_ne _ _ _ hkne]
    exact h1
  · intro p hp hpc
    exact h2 p (List.mem_of_mem_filter hp) hpc
  · show c ∈ (match jmapGet t.conns idr with
      | some c2 => t.live.erase c2
      | none => t.live)
    cases hg : jmapGet t.conns idr with
    | none => exact h3
    | some c2 =>
      have hmemc2 := jmapGet_mem _ _ _ hg
      have hne : c ≠ c2 := fun he => hkne ((h2 (idr, c2) hmemc2 he.symm).symm)
      exact (List.mem_erase_of_ne hne).mpr h3

/-- The whole removal loop keeps every entry whose id is in the new eligible
set, together with its client's uniqueness and liveness. -/
theorem removeFold_invariant (newIds : List String) (k : String) (c : Nat) :
    ∀ (ids : List String) (t : DaemonState),
      newIds.contains k = true →
      jmapGet t.conns k = some c →
      (∀ p ∈ t.conns, p.2 = c → p.1 = k) →
      c ∈ t.live →
      jmapGet (ids.foldl (fun acc idr =>
          if newIds.contains idr then acc else removeConnection idr acc) t).conns k
        = some c
      ∧ (∀ p ∈ (ids.foldl (fun acc idr =>
          if newIds.contains idr then acc else removeConnection idr acc) t).conns,
          p.2 = c → p.1 = k)
      ∧ c ∈ (ids.foldl (fun acc idr =>
          if newIds.contains idr then acc else removeConnection idr acc) t).live := by
  intro ids
  induction ids with
  | nil =>
    intro t hk h1 h2 h3
    exact ⟨h1, h2, h3⟩
  | cons idr rest ih =>
    intro t hk h1 h2 h3
    simp only [List.foldl_cons]
    by_cases hid : newIds.contains idr = true
    · rw [if_pos hid]
      exact ih t hk h1 h2 h3
    · rw [if_neg hid]
      have hkne : k ≠ idr := fun he => hid (he ▸ hk)
      obtain ⟨p1, p2, p3⟩ := removeConnection_preserves idr t k c hkne h1 h2 h3
      exact ih _ hk p1 p2 p3

/-- `addConnection` for a different account id keeps an existing entry and
its client's liveness. -/
theorem addConnection_preserves (a : AccountInfo) (t : DaemonState) (k : String) (c : Nat)
    (hkne : k ≠ a.id)
    (h1 : jmapGet t.conns k = some c) (h3 : c ∈ t.live) :
    jmapGet (addConnection a t).conns k = some c ∧ c ∈ (addConnection a t).live := by
  unfold addConnection
  split_ifs with hcond
  · constructor
    · show jmapGet (jmapSet t.conns a.id t.nextClient) k = some c
      rw [jmapGet_set_ne _ _ _ _ hkne]
      exact h1
    · exact List.mem_append_left _ h3
  · exact ⟨h1, h3⟩

/-- The whole addition loop of the reconciliation keeps every entry whose id
was in the snapshot, and its client's liveness. -/
theorem addFold_invariant (currentIds : List String) (k : String) (c : Nat) :
    ∀ (accounts : List AccountInfo) (t : DaemonState),
      currentIds.contains k = true →
      jmapGet t.conns k = some c →
      c ∈ t.live →
      jmapGet (accounts.foldl (fun acc a =>
          if currentIds.contains a.id then acc else addConnection a acc) t).conns k
        = some c
      ∧ c ∈ (accounts.foldl (fun acc a =>
          if currentIds.contains a.id then acc else addConnection a acc) t).live := by
  intro accounts
  induction accounts with
  | nil =>
    intro t hk h1 h3
    exact ⟨h1, h3⟩
  | cons a rest ih =>
    intro t hk h1 h3
    simp only [List.foldl_cons]
    by_cases hid : currentIds.contains a.id = true
    · rw [if_pos hid]
      exact ih t hk h1 h3
    · rw [if_neg hid]
      have hkne : k ≠ a.id := fun he => hid (he ▸ hk)
      obtain ⟨p1, p3⟩ := addConnection_preserves a t k c hkne h1 h3
      exact ih _ hk p1 p3

/-- The removal loop never creates an entry for an absent key. -/
theorem removeFold_none (newIds : List String) (k : String) :
    ∀ (ids : List String) (t : DaemonState),
      jmapGet t.conns k = none →
      jmapGet (ids.foldl (fun acc idr =>
          if newIds.contains idr then acc else removeConnection idr acc) t).conns k
        = none := by
  intro ids
  induction ids with
  | nil =>
    intro t h
    exact h
  | cons idr rest ih =>
    intro t h
    simp only [List.foldl_cons]
    by_cases hid : newIds.contains idr = true
    · rw [if_pos hid]
      exact ih t h
    · rw [if_neg hid]
      apply ih
      show jmapGet (t.conns.filter (fun p => p.1 != idr)) k = none
      exact jmapGet_filter_none _ _ _ h

/-- The addition loop never creates an entry for an id outside the new
eligible set. -/
theorem addFold_none (currentIds : List String) (k : String) :
    ∀ (accounts : List AccountInfo) (t : DaemonState),
      (∀ a ∈ accounts, a.id ≠ k) →
      jmapGet t.conns k = none →
      jmapGet (accounts.foldl (fun acc a =>
          if currentIds.contains a.id then acc else addConnection a acc) t).conns k
        = none := by
  intro accounts
  induction accounts with
  | nil =>
    intro t hne h
    exact h
  | cons a rest ih =>
    intro t hne h
    simp only [List.foldl_cons]
    by_cases hid : currentIds.contains a.id = true
    · rw [if_pos hid]
      exact ih t (fun b hb => hne b (List.mem_cons_of_mem a hb)) h
    · rw [if_neg hid]
      apply ih (addConnection a t) (fun b hb => hne b (List.mem_cons_of_mem a hb))
      unfold addConnection
      split_ifs with hcond
      · show jmapGet (jmapSet t.conns a.id t.nextClient) k = none
        rw [jmapGet_set_ne _ _ _ _ (fun he => hne a (List.mem_cons_self a rest) he.symm)]
        exact h
      · exact h

/-- C5: in a reconciliation cycle, an account id present both in the managed
set and in the new eligible set keeps its exact map entry and its client is
not closed (stays live); and an id managed by nobody and absent from the
eligible set stays absent — only added or removed accounts change the
connection map.  Client values are pairwise distinct in every reachable
state, hence the `Nodup` hypothesis. -/
theorem refreshAccounts_retained_untouched (accounts : List AccountInfo)
    (st : DaemonState) (k : String) (c : Nat)
    (hvals : (st.conns.map Prod.snd).Nodup)
    (hmem : jmapGet st.conns k = some c)
    (hnew : k ∈ accounts.map AccountInfo.id)
    (hlive : c ∈ st.live) :
    jmapGet (refreshAccounts accounts st).conns k = some c
    ∧ c ∈ (refreshAccounts accounts st).live
    ∧ ∀ k', jmapGet st.conns k' = none → k' ∉ accounts.map AccountInfo.id →
        jmapGet (refreshAccounts accounts st).conns k' = none := by
  have hpair := jmapGet_mem _ _ _ hmem
  have hknew : (accounts.map AccountInfo.id).contains k = true :=
    List.elem_iff.mpr hnew
  have hcur : (st.conns.map Prod.fst).contains k = true :=
    List.elem_iff.mpr (List.mem_map.mpr ⟨(k, c), hpair, rfl⟩)
  have h2 := values_nodup_unique st.conns hvals k c hpair
  obtain ⟨g1, _, g3⟩ := removeFold_invariant (accounts.map AccountInfo.id) k c
    (st.conns.map Prod.fst) st hknew hmem h2 hlive
  obtain ⟨f1, f3⟩ := addFold_invariant (st.conns.map Prod.fst) k c accounts
    (removePhase accounts st) hcur g1 g3
  refine ⟨f1, f3, ?_⟩
  intro k' hn1 hn2
  have hr := removeFold_none (accounts.map AccountInfo.id) k'
    (st.conns.map Prod.fst) st hn1
  exact addFold_none (st.conns.map Prod.fst) k' accounts (removePhase accounts st)
    (fun a ha' he => hn2 (he ▸ List.mem_map.mpr ⟨a, ha', rfl⟩)) hr

/-- Witness for C5 on the concrete fixture: `a` is retained with client 0
still live and its entry unchanged; an unrelated id stays absent. -/
theorem refreshAccounts_retained_untouched_witness :
    jmapGet (refreshAccounts [accA, accC] c5State).conns "a" = some 0
    ∧ 0 ∈ (refreshAccounts [accA, accC] c5State).live
    ∧ jmapGet (refreshAccounts [accA, accC] c5State).conns "zzz" = none := by
  have h := refreshAccounts_retained_untouched [accA, accC] c5State "a" 0
    (by decide) (by decide) (by decide) (by decide)
  exact ⟨h.1, h.2.1, h.2.2 "zzz" (by decide) (by decide)⟩
